import Mathlib

/-!
Verification of the transcript normalization core of the Claude session
manager (claude-types.ts and the newer claude-cli-wrapper.ts).

A transcript file is a sequence of lines.  After `content.split("\n")`,
each raw line either trims to the empty string (and is dropped by the
`filter(line => line.trim())` step), fails `JSON.parse` (a garbage line),
or parses to a JSON object.  We embed a line as `FileLine`: `blank` for
whitespace-only lines, `garbage` for lines on which `JSON.parse` throws,
and `entry e` for lines parsing to the object `e`.  The parsed object is
embedded as `SessionFileEntry`, a record of the fields the code reads,
each optional (absent JSON keys are `none`; the JS truthiness test on
`isMeta` is collapsed to a `Bool`).

The ambient values `new Date().toISOString()` and `Deno.cwd()` read at
the start of `parseSessionFile` are passed in explicitly as the `now`
and `cwd0` parameters; the session id derived from the filename is the
`sid` parameter.  JavaScript string operations are modelled over the
character list of a Lean `String`: `slice(0, n)` is `jsSlice`,
`includes` is `strIncludes`, and `a || b` on possibly-absent strings
(where the empty string is falsy) is `jsOr`.
-/

/-- One content block of a list-valued `content` field.  Only the
`type` and `text` keys are read by `extractTextContent`; both may be
absent. -/
structure ContentBlock where
  btype : Option String := none
  text : Option String := none
deriving DecidableEq, Repr

/-- A JavaScript `content` value as the code inspects it: absent
(`undefined`), a plain string, an array of blocks, or any other JSON
value (which both `typeof c === "string"` and `Array.isArray(c)`
reject). -/
inductive JsContent where
  | undef : JsContent
  | str (s : String) : JsContent
  | blocks (bs : List ContentBlock) : JsContent
  | other : JsContent
deriving DecidableEq, Repr

/-- The nested `message` object of a message-bearing entry: the keys
the code reads (`role`, `content`, `model`). -/
structure MessageObj where
  role : Option String := none
  content : JsContent := .undef
  model : Option String := none
deriving DecidableEq, Repr

/-- A parsed transcript line (one JSON object), restricted to the keys
the session-manager code reads.  Absent keys are `none`; `isMeta`
records the JS truthiness of the `isMeta` field. -/
structure SessionFileEntry where
  type : Option String := none
  timestamp : Option String := none
  cwd : Option String := none
  gitBranch : Option String := none
  isMeta : Bool := false
  summary : Option String := none
  message : Option MessageObj := none
deriving DecidableEq, Repr

/-- One physical line of a transcript file. -/
inductive FileLine where
  | blank : FileLine
  | garbage : FileLine
  | entry (e : SessionFileEntry) : FileLine
deriving DecidableEq, Repr

/-- Survives `content.split("\n").filter(line => line.trim())`. -/
def nonBlank : FileLine → Bool
  | .blank => false
  | .garbage => true
  | .entry _ => true

/-- `entry.type === 'metadata'` (type guard `isMetadataEntry`). -/
def isMetadataEntry (e : SessionFileEntry) : Bool :=
  e.type == some "metadata"

/-- `entry.type === 'summary'` (type guard `isSummaryEntry`). -/
def isSummaryEntry (e : SessionFileEntry) : Bool :=
  e.type == some "summary"

/-- `entry.type === 'message' || entry.type === 'user' || entry.type
=== 'assistant'` (type guard `isMessageEntry`). -/
def isMessageEntry (e : SessionFileEntry) : Bool :=
  e.type == some "message" || e.type == some "user" || e.type == some "assistant"

/-- JS truthiness of an optional string field (`item.text`): present
and non-empty. -/
def textTruthy : Option String → Bool
  | some s => !(s == "")
  | none => false

/-- `extractTextContent` from claude-types.ts: a string is returned
unchanged; an array keeps the blocks with `item.type === 'text' &&
item.text`, maps them to their `text`, and joins with a newline; any
other value yields the empty string. -/
def extractTextContent : JsContent → String
  | .str s => s
  | .blocks bs =>
      String.intercalate "\n"
        ((bs.filter (fun b => b.btype == some "text" && textTruthy b.text)).map
          (fun b => b.text.getD ""))
  | .undef => ""
  | .other => ""

/-- The record produced by `normalizeMessageEntry`: `role`, `content`,
`timestamp` as read from the entry (possibly absent), and the `isMeta`
flag (absent on non-meta results, hence `false`). -/
structure NormalizedMessage where
  role : Option String := none
  content : JsContent := .undef
  timestamp : Option String := none
  isMeta : Bool := false
deriving DecidableEq, Repr

/-- `normalizeMessageEntry` from claude-types.ts.  A non-message entry
yields `null` (`.ok none`).  A meta message yields the fixed
`{role: 'system', content: '', isMeta: true}` record carrying the
entry's timestamp.  Otherwise the wrapped / direct-user /
direct-assistant shapes are read; accessing `entry.message.role` or
`entry.message.content` when the `message` key is absent throws a
TypeError, modelled as `.error ()` (the caller catches it). -/
def normalizeMessageEntry (e : SessionFileEntry) :
    Except Unit (Option NormalizedMessage) :=
  if !(isMessageEntry e) then .ok none
  else if e.isMeta then
    .ok (some { role := some "system", content := .str "",
                timestamp := e.timestamp, isMeta := true })
  else if e.type == some "message" then
    match e.message with
    | none => .error ()
    | some m => .ok (some { role := m.role, content := m.content,
                            timestamp := e.timestamp })
  else if e.type == some "user" then
    match e.message with
    | none => .error ()
    | some m => .ok (some { role := some "user", content := m.content,
                            timestamp := e.timestamp })
  else if e.type == some "assistant" then
    match e.message with
    | none => .error ()
    | some m => .ok (some { role := some "assistant", content := m.content,
                            timestamp := e.timestamp })
  else .ok none

/-- `pat.isPrefixOf l` on character lists, at some suffix of `l`:
JavaScript `String.prototype.includes`. -/
def hasSubstr (pat : String) : List Char → Bool
  | [] => pat.data.isPrefixOf []
  | c :: cs => pat.data.isPrefixOf (c :: cs) || hasSubstr pat cs

/-- `s.includes(pat)`. -/
def strIncludes (s pat : String) : Bool :=
  hasSubstr pat s.data

/-- The first command-marker substring filtered out of `lastMessage`. -/
def marker1 : String := "<command-name>"

/-- The second command-marker substring filtered out of `lastMessage`. -/
def marker2 : String := "<local-command-stdout>"

/-- `v || d` where `v` is a possibly-absent string field and the empty
string is falsy (used for `entry.timestamp || timestamp` and
`entry.cwd || cwd`). -/
def jsOr (v : Option String) (d : String) : String :=
  match v with
  | some s => if s == "" then d else s
  | none => d

/-- `s.slice(0, n)`: the first `n` characters of `s`. -/
def jsSlice (s : String) (n : Nat) : String :=
  String.mk (s.data.take n)

/-- The session summary record returned by `parseSessionFile` (the
fields of `ClaudeSession` it populates).  The `summary` field is the
raw value of the loop variable, which JS leaves `undefined` when a
summary entry lacks its `summary` key, hence `Option String`. -/
structure ClaudeSession where
  id : String
  timestamp : String
  cwd : String
  gitBranch : Option String
  status : String
  messageCount : Nat
  lastMessage : String
  summary : Option String
deriving DecidableEq, Repr

/-- The mutable loop state of `parseSessionFile`: `metadata` (we only
need whether it is non-null, `sawMetadata`), `messageCount`,
`lastMessage`, `summary`, `timestamp`, `cwd`, `gitBranch`. -/
structure ParseState where
  sawMetadata : Bool
  messageCount : Nat
  lastMessage : String
  summary : Option String
  timestamp : String
  cwd : String
  gitBranch : Option String
deriving DecidableEq, Repr

/-- The state of `parseSessionFile` before its loop: counters zeroed,
`timestamp` from `new Date().toISOString()` (parameter `now`), `cwd`
from `Deno.cwd()` (parameter `cwd0`). -/
def initState (now cwd0 : String) : ParseState :=
  { sawMetadata := false, messageCount := 0, lastMessage := "",
    summary := some "", timestamp := now, cwd := cwd0, gitBranch := none }

/-- One iteration of the `for (const line of lines)` loop of
`parseSessionFile`.  A garbage line makes `JSON.parse` throw into the
per-line catch, leaving the state unchanged; likewise a message entry
on which `normalizeMessageEntry` throws. -/
def pstep (st : ParseState) (l : FileLine) : ParseState :=
  match l with
  | .blank => st
  | .garbage => st
  | .entry e =>
    if isMetadataEntry e then
      { st with sawMetadata := true,
                timestamp := jsOr e.timestamp st.timestamp,
                cwd := jsOr e.cwd st.cwd,
                gitBranch := e.gitBranch }
    else if isSummaryEntry e then
      { st with summary := e.summary }
    else if isMessageEntry e then
      match normalizeMessageEntry e with
      | .error _ => st
      | .ok none => st
      | .ok (some n) =>
        if n.isMeta then st
        else
          let st1 := { st with messageCount := st.messageCount + 1 }
          if n.role == some "user" then
            let text := extractTextContent n.content
            if text != "" && !(strIncludes text marker1)
                && !(strIncludes text marker2) then
              { st1 with lastMessage := text }
            else st1
          else st1
    else st

/-- The legacy fallback after the loop: when no metadata record was
seen, re-parse `lines[0]` and take its `timestamp`/`cwd`/`gitBranch`
(ignoring a parse failure). -/
def applyFallback (st : ParseState) (lines : List FileLine) : ParseState :=
  if st.sawMetadata then st
  else
    match lines.head? with
    | some (.entry e) =>
        { st with timestamp := jsOr e.timestamp st.timestamp,
                  cwd := jsOr e.cwd st.cwd,
                  gitBranch := e.gitBranch }
    | _ => st

/-- `parseSessionFile` from the newer claude-cli-wrapper.ts, for a file
whose non-blank lines are `file.filter nonBlank`: returns `null` when
no line survives the trim filter, else folds the loop over the lines,
applies the legacy fallback, and assembles the `ClaudeSession` with
`lastMessage.slice(0, 100)`. -/
def parseSessionFile (sid now cwd0 : String) (file : List FileLine) :
    Option ClaudeSession :=
  let lines := file.filter nonBlank
  if lines.isEmpty then none
  else
    let st := applyFallback (lines.foldl pstep (initState now cwd0)) lines
    some { id := sid, timestamp := st.timestamp, cwd := st.cwd,
           gitBranch := st.gitBranch, status := "completed",
           messageCount := st.messageCount,
           lastMessage := jsSlice st.lastMessage 100,
           summary := st.summary }

/-- One message collected by the markdown path of `exportSession`. -/
structure ExportMsg where
  role : Option String := none
  content : JsContent := .undef
  timestamp : Option String := none
  model : Option String := none
deriving DecidableEq, Repr

/-- One iteration of the collection loop of `exportSession`'s markdown
path: metadata and summary entries push nothing; a message entry whose
normalization succeeds and is not meta is pushed, with the model read
from `entry.message.model` for direct assistant entries. -/
def exportStep (acc : List ExportMsg) (l : FileLine) : List ExportMsg :=
  match l with
  | .blank => acc
  | .garbage => acc
  | .entry e =>
    if isMetadataEntry e then acc
    else if isSummaryEntry e then acc
    else if isMessageEntry e then
      match normalizeMessageEntry e with
      | .error _ => acc
      | .ok none => acc
      | .ok (some n) =>
        if n.isMeta then acc
        else
          acc ++ [{ role := n.role, content := n.content,
                    timestamp := n.timestamp,
                    model := if e.type == some "assistant" then
                               (e.message.map (fun m => m.model)).join
                             else none }]
    else acc

/-- The ordered conversation-message list collected by `exportSession`
(markdown path) from a file's lines. -/
def exportMessages (file : List FileLine) : List ExportMsg :=
  (file.filter nonBlank).foldl exportStep []

/-- A line that contributes to `messageCount`: a parseable entry of
message type whose normalization succeeds with a non-meta result. -/
def conversational : FileLine → Bool
  | .entry e =>
      isMessageEntry e &&
        (match normalizeMessageEntry e with
         | .ok (some n) => !n.isMeta
         | _ => false)
  | _ => false

/-- The text a line contributes as a `lastMessage` candidate: for a
non-meta user message, the extracted text when it is non-empty and
contains neither command marker. -/
def eligText : FileLine → Option String
  | .entry e =>
      if isMessageEntry e then
        match normalizeMessageEntry e with
        | .ok (some n) =>
            if !n.isMeta && n.role == some "user" then
              let t := extractTextContent n.content
              if t != "" && !(strIncludes t marker1)
                  && !(strIncludes t marker2) then some t
              else none
            else none
        | _ => none
      else none
  | _ => none

/-- The `lastMessage` value accumulated by the loop before truncation:
the last eligible user-message text in file order, or `""`. -/
def lastEligibleUserText (file : List FileLine) : String :=
  ((file.filter nonBlank).filterMap eligText).foldl (fun _ t => t) ""

/-- A metadata line. -/
def isMetadataLine : FileLine → Bool
  | .entry e => isMetadataEntry e
  | _ => false

/-- A meta message line (message type with truthy `isMeta`). -/
def isMetaMessageLine : FileLine → Bool
  | .entry e => isMessageEntry e && e.isMeta
  | _ => false

/-- The session-level fields accumulated by `parseSessionFile`. -/
structure MetaFields where
  sawMeta : Bool
  timestamp : String
  cwd : String
  gitBranch : Option String
deriving DecidableEq, Repr

/-- The effect of one metadata record on the session-level fields:
non-empty `timestamp`/`cwd` overwrite, `gitBranch` is overwritten
unconditionally; any other line leaves them unchanged. -/
def metaStep (m : MetaFields) (l : FileLine) : MetaFields :=
  match l with
  | .entry e =>
      if isMetadataEntry e then
        { sawMeta := true, timestamp := jsOr e.timestamp m.timestamp,
          cwd := jsOr e.cwd m.cwd, gitBranch := e.gitBranch }
      else m
  | _ => m

/-- The session-level fields as determined by the metadata records
alone (folded in file order), with the legacy first-line fallback when
none exists. -/
def sessionMetaFields (now cwd0 : String) (file : List FileLine) : MetaFields :=
  let lines := file.filter nonBlank
  let m := (lines.filter isMetadataLine).foldl metaStep
    { sawMeta := false, timestamp := now, cwd := cwd0, gitBranch := none }
  if m.sawMeta then m
  else
    match lines.head? with
    | some (.entry e) =>
        { m with timestamp := jsOr e.timestamp m.timestamp,
                 cwd := jsOr e.cwd m.cwd, gitBranch := e.gitBranch }
    | _ => m

/-- Modelled from the spec (claim C2's words): the first metadata
record seen in file order. -/
def firstMetadataEntry (file : List FileLine) : Option SessionFileEntry :=
  ((file.filter nonBlank).filterMap (fun l =>
    match l with
    | .entry e => if isMetadataEntry e then some e else none
    | _ => none)).head?

/-- Modelled from the spec (claim C1's words): the flattened text of
the last-in-file user message record whose extracted text does not
contain a command-marker substring (no non-emptiness requirement). -/
def specLastUserText (file : List FileLine) : Option String :=
  ((file.filter nonBlank).filterMap (fun l =>
    match l with
    | .entry e =>
        if isMessageEntry e then
          match normalizeMessageEntry e with
          | .ok (some n) =>
              if !n.isMeta && n.role == some "user" then
                let t := extractTextContent n.content
                if !(strIncludes t marker1) && !(strIncludes t marker2) then
                  some t
                else none
              else none
          | _ => none
        else none
    | _ => none)).getLast?

/-- Modelled from the spec (claim C7's words): the newline-joined text
of every block whose type is "text" (no truthiness requirement on the
`text` field). -/
def specAllTextJoin (bs : List ContentBlock) : String :=
  String.intercalate "\n"
    ((bs.filter (fun b => b.btype == some "text")).map (fun b => b.text.getD ""))

/-- The block texts kept by `extractTextContent`, as a recursion: the
`text` of each block whose type is "text" and whose `text` field is a
non-empty string. -/
def eligibleBlockTexts : List ContentBlock → List String
  | [] => []
  | b :: bs =>
      if b.btype == some "text" && textTruthy b.text then
        b.text.getD "" :: eligibleBlockTexts bs
      else eligibleBlockTexts bs

/-- The components of a session summary that do not involve the ambient
clock or working directory. -/
def sessionCore (s : ClaudeSession) :
    String × Option String × String × Nat × String × Option String :=
  (s.id, s.gitBranch, s.status, s.messageCount, s.lastMessage, s.summary)

/-- The projection of the loop state onto the session-level fields. -/
def metaProjP (st : ParseState) : MetaFields :=
  ⟨st.sawMetadata, st.timestamp, st.cwd, st.gitBranch⟩

/-- The components of the loop state that never read the ambient
`timestamp`/`cwd` defaults. -/
structure CoreFields where
  sawMetadata : Bool
  messageCount : Nat
  lastMessage : String
  summary : Option String
  gitBranch : Option String
deriving DecidableEq, Repr

/-- The projection of the loop state onto its ambient-independent
components. -/
def coreProjP (st : ParseState) : CoreFields :=
  ⟨st.sawMetadata, st.messageCount, st.lastMessage, st.summary, st.gitBranch⟩

/-- The action of one loop iteration on the ambient-independent
components (it reads only them and the line). -/
def coreStep (c : CoreFields) (l : FileLine) : CoreFields :=
  match l with
  | .blank => c
  | .garbage => c
  | .entry e =>
    if isMetadataEntry e then
      { c with sawMetadata := true, gitBranch := e.gitBranch }
    else if isSummaryEntry e then
      { c with summary := e.summary }
    else if isMessageEntry e then
      match normalizeMessageEntry e with
      | .error _ => c
      | .ok none => c
      | .ok (some n) =>
        if n.isMeta then c
        else
          let c1 := { c with messageCount := c.messageCount + 1 }
          if n.role == some "user" then
            let text := extractTextContent n.content
            if text != "" && !(strIncludes text marker1)
                && !(strIncludes text marker2) then
              { c1 with lastMessage := text }
            else c1
          else c1
    else c

/-- The legacy fallback's action on the ambient-independent components:
only `gitBranch` can change. -/
def coreFallback (c : CoreFields) (lines : List FileLine) : CoreFields :=
  if c.sawMetadata then c
  else
    match lines.head? with
    | some (.entry e) => { c with gitBranch := e.gitBranch }
    | _ => c

/-- A direct-format user entry whose `message.content` is `c`. -/
def userEntry (c : JsContent) : SessionFileEntry :=
  { type := some "user", message := some { content := c } }

/-- Concrete input for C1: an eligible user message followed by a user
message whose list content holds no text block, so its extracted text
is empty (and contains no command marker). -/
def fileC1 : List FileLine :=
  [ .entry (userEntry (.str "hi")), .entry (userEntry (.blocks [])) ]

/-- Concrete input for C2: two metadata records with different `cwd`. -/
def fileC2 : List FileLine :=
  [ .entry { type := some "metadata", cwd := some "/a" },
    .entry { type := some "metadata", cwd := some "/b" } ]

/-- Concrete input for C3: a transcript supplying neither a timestamp
nor a working directory. -/
def fileC3 : List FileLine :=
  [ .entry { type := some "summary", summary := some "x" } ]

/-- Concrete blocks for C7: two text blocks, the second with empty
`text`. -/
def blocksC7 : List ContentBlock :=
  [ { btype := some "text", text := some "a" },
    { btype := some "text", text := some "" } ]

/-- A 150-character string, for the truncation witness. -/
def long150 : String := String.mk (List.replicate 150 'a')

/-- The first 100 characters of `long150`. -/
def long100 : String := String.mk (List.replicate 100 'a')

/-- Concrete input for the C8 witness: one user message longer than
100 characters. -/
def fileC8 : List FileLine := [ .entry (userEntry (.str long150)) ]

/-- Concrete input for witnesses: metadata, a user message, a garbage
line, an assistant message, a meta user message, and a summary. -/
def fileW : List FileLine :=
  [ .entry { type := some "metadata", timestamp := some "2024-01-01T00:00:00Z",
             cwd := some "/tmp/proj", gitBranch := some "main" },
    .entry (userEntry (.str "fix bug")),
    .garbage,
    .entry { type := some "assistant",
             message := some
               { content := .blocks [{ btype := some "text", text := some "Fixed." }] } },
    .entry { type := some "user", isMeta := true,
             message := some { content := .str "internal" } },
    .entry { type := some "summary", summary := some "Bug fix session" } ]

lemma isMessageEntry_type {e : SessionFileEntry} (h : isMessageEntry e = true) :
    e.type = some "message" ∨ e.type = some "user" ∨ e.type = some "assistant" := by
  have h' := h
  simp [isMessageEntry] at h'
  tauto

lemma not_msg_of_metadata {e : SessionFileEntry} (h : isMetadataEntry e = true) :
    isMessageEntry e = false := by
  simp [isMetadataEntry] at h
  simp only [isMessageEntry, h]
  decide

lemma not_msg_of_summary {e : SessionFileEntry} (h : isSummaryEntry e = true) :
    isMessageEntry e = false := by
  simp [isSummaryEntry] at h
  simp only [isMessageEntry, h]
  decide

lemma pstep_messageCount (st : ParseState) (l : FileLine) :
    (pstep st l).messageCount =
      if conversational l then st.messageCount + 1 else st.messageCount := by
  cases l with
  | blank => simp [pstep, conversational]
  | garbage => simp [pstep, conversational]
  | entry e =>
    cases h1 : isMetadataEntry e with
    | true =>
      have h3 := not_msg_of_metadata h1
      simp [pstep, conversational, h1, h3]
    | false =>
      cases h2 : isSummaryEntry e with
      | true =>
        have h3 := not_msg_of_summary h2
        simp [pstep, conversational, h1, h2, h3]
      | false =>
        cases h3 : isMessageEntry e with
        | false => simp [pstep, conversational, h1, h2, h3]
        | true =>
          simp only [pstep, conversational, h1, h2, h3, Bool.false_eq_true,
            if_false, if_true, Bool.true_and]
          cases hN : normalizeMessageEntry e with
          | error u => simp
          | ok ov =>
            cases ov with
            | none => simp
            | some n =>
              cases hM : n.isMeta with
              | true => simp [hM]
              | false =>
                simp only [hM, Bool.not_false, if_true, Bool.false_eq_true,
                  if_false, ite_eq_right_iff]
                cases hR : n.role == some "user" with
                | false => simp [hR]
                | true =>
                  simp only [hR, if_true]
                  split <;> simp

lemma pstep_lastMessage (st : ParseState) (l : FileLine) :
    (pstep st l).lastMessage = (eligText l).getD st.lastMessage := by
  cases l with
  | blank => simp [pstep, eligText]
  | garbage => simp [pstep, eligText]
  | entry e =>
    cases h1 : isMetadataEntry e with
    | true =>
      have h3 := not_msg_of_metadata h1
      simp [pstep, eligText, h1, h3]
    | false =>
      cases h2 : isSummaryEntry e with
      | true =>
        have h3 := not_msg_of_summary h2
        simp [pstep, eligText, h1, h2, h3]
      | false =>
        cases h3 : isMessageEntry e with
        | false => simp [pstep, eligText, h1, h2, h3]
        | true =>
          simp only [pstep, eligText, h1, h2, h3, Bool.false_eq_true,
            if_false, if_true]
          cases hN : normalizeMessageEntry e with
          | error u => simp
          | ok ov =>
            cases ov with
            | none => simp
            | some n =>
              cases hM : n.isMeta with
              | true => simp [hM]
              | false =>
                simp only [hM, Bool.not_false, Bool.true_and,
                  Bool.false_eq_true, if_false]
                cases hR : n.role == some "user" with
                | false => simp [hR]
                | true =>
                  simp only [hR, if_true]
                  split <;> simp

lemma metaProjP_pstep (st : ParseState) (l : FileLine) :
    metaProjP (pstep st l) = metaStep (metaProjP st) l := by
  cases l with
  | blank => simp [pstep, metaStep]
  | garbage => simp [pstep, metaStep]
  | entry e =>
    cases h1 : isMetadataEntry e with
    | true => simp [pstep, metaStep, metaProjP, h1]
    | false =>
      cases h2 : isSummaryEntry e with
      | true => simp [pstep, metaStep, metaProjP, h1, h2]
      | false =>
        cases h3 : isMessageEntry e with
        | false => simp [pstep, metaStep, metaProjP, h1, h2, h3]
        | true =>
          simp only [pstep, metaStep, metaProjP, h1, h2, h3,
            Bool.false_eq_true, if_false, if_true]
          cases hN : normalizeMessageEntry e with
          | error u => simp
          | ok ov =>
            cases ov with
            | none => simp
            | some n =>
              cases hM : n.isMeta with
              | true => simp [hM]
              | false =>
                simp only [hM, Bool.false_eq_true, if_false]
                cases hR : n.role == some "user" with
                | false => simp [hR]
                | true =>
                  simp only [hR, if_true]
                  split <;> simp

lemma coreProjP_pstep (st : ParseState) (l : FileLine) :
    coreProjP (pstep st l) = coreStep (coreProjP st) l := by
  cases l with
  | blank => simp [pstep, coreStep]
  | garbage => simp [pstep, coreStep]
  | entry e =>
    cases h1 : isMetadataEntry e with
    | true => simp [pstep, coreStep, coreProjP, h1]
    | false =>
      cases h2 : isSummaryEntry e with
      | true => simp [pstep, coreStep, coreProjP, h1, h2]
      | false =>
        cases h3 : isMessageEntry e with
        | false => simp [pstep, coreStep, coreProjP, h1, h2, h3]
        | true =>
          simp only [pstep, coreStep, coreProjP, h1, h2, h3,
            Bool.false_eq_true, if_false, if_true]
          cases hN : normalizeMessageEntry e with
          | error u => simp
          | ok ov =>
            cases ov with
            | none => simp
            | some n =>
              cases hM : n.isMeta with
              | true => simp [hM]
              | false =>
                simp only [hM, Bool.false_eq_true, if_false]
                cases hR : n.role == some "user" with
                | false => simp [hR]
                | true =>
                  simp only [hR, if_true]
                  split <;> simp

lemma foldl_pstep_messageCount (ls : List FileLine) :
    ∀ st : ParseState, (ls.foldl pstep st).messageCount =
      st.messageCount + ls.countP conversational := by
  induction ls with
  | nil => intro st; simp
  | cons l ls ih =>
    intro st
    rw [List.foldl_cons, ih, List.countP_cons, pstep_messageCount]
    cases h : conversational l
    · simp [h]
    · simp [h]
      omega

lemma foldl_pstep_lastMessage (ls : List FileLine) :
    ∀ st : ParseState, (ls.foldl pstep st).lastMessage =
      (ls.filterMap eligText).foldl (fun _ t => t) st.lastMessage := by
  induction ls with
  | nil => intro st; simp
  | cons l ls ih =>
    intro st
    rw [List.foldl_cons, ih]
    cases h : eligText l with
    | none => simp [List.filterMap_cons, h, pstep_lastMessage]
    | some t => simp [List.filterMap_cons, h, pstep_lastMessage]

lemma foldl_metaProjP (ls : List FileLine) :
    ∀ st : ParseState, metaProjP (ls.foldl pstep st) =
      ls.foldl metaStep (metaProjP st) := by
  induction ls with
  | nil => intro st; simp
  | cons l ls ih =>
    intro st
    rw [List.foldl_cons, List.foldl_cons, ih, metaProjP_pstep]

lemma foldl_metaStep_filter (ls : List FileLine) :
    ∀ m : MetaFields, ls.foldl metaStep m =
      (ls.filter isMetadataLine).foldl metaStep m := by
  induction ls with
  | nil => intro m; simp
  | cons l ls ih =>
    intro m
    cases l with
    | blank => simp [metaStep, isMetadataLine, List.filter_cons, ih]
    | garbage => simp [metaStep, isMetadataLine, List.filter_cons, ih]
    | entry e =>
      cases h : isMetadataEntry e with
      | true => simp [metaStep, isMetadataLine, List.filter_cons, h, ih]
      | false => simp [metaStep, isMetadataLine, List.filter_cons, h, ih]

lemma foldl_coreProjP (ls : List FileLine) :
    ∀ st : ParseState, coreProjP (ls.foldl pstep st) =
      ls.foldl coreStep (coreProjP st) := by
  induction ls with
  | nil => intro st; simp
  | cons l ls ih =>
    intro st
    rw [List.foldl_cons, List.foldl_cons, ih, coreProjP_pstep]

lemma applyFallback_messageCount (st : ParseState) (lines : List FileLine) :
    (applyFallback st lines).messageCount = st.messageCount := by
  unfold applyFallback
  split
  · rfl
  · split <;> rfl

lemma applyFallback_lastMessage (st : ParseState) (lines : List FileLine) :
    (applyFallback st lines).lastMessage = st.lastMessage := by
  unfold applyFallback
  split
  · rfl
  · split <;> rfl

lemma applyFallback_summary (st : ParseState) (lines : List FileLine) :
    (applyFallback st lines).summary = st.summary := by
  unfold applyFallback
  split
  · rfl
  · split <;> rfl

lemma applyFallback_congr (st : ParseState) (lines1 lines2 : List FileLine)
    (h : lines1.head? = lines2.head?) :
    applyFallback st lines1 = applyFallback st lines2 := by
  unfold applyFallback
  rw [h]

lemma normalizeMessageEntry_meta {e : SessionFileEntry}
    (h1 : isMessageEntry e = true) (h2 : e.isMeta = true) :
    normalizeMessageEntry e =
      .ok (some { role := some "system", content := .str "",
                  timestamp := e.timestamp, isMeta := true }) := by
  simp [normalizeMessageEntry, h1, h2]

lemma normalizeMessageEntry_nonMsg {e : SessionFileEntry}
    (h : isMessageEntry e = false) :
    normalizeMessageEntry e = .ok none := by
  simp [normalizeMessageEntry, h]

lemma pstep_metaMessage (st : ParseState) {e : SessionFileEntry}
    (h1 : isMessageEntry e = true) (h2 : e.isMeta = true) :
    pstep st (.entry e) = st := by
  have hm := not_msg_of_metadata (e := e)
  have hs := not_msg_of_summary (e := e)
  have h1' : isMetadataEntry e = false := by
    cases h : isMetadataEntry e
    · rfl
    · rw [hm h] at h1; exact absurd h1 (by simp)
  have h2' : isSummaryEntry e = false := by
    cases h : isSummaryEntry e
    · rfl
    · rw [hs h] at h1; exact absurd h1 (by simp)
  simp [pstep, h1', h2', h1, normalizeMessageEntry_meta h1 h2]

lemma parseSessionFile_some {sid now cwd0 : String} {file : List FileLine}
    {s : ClaudeSession}
    (h : parseSessionFile sid now cwd0 file = some s) :
    (file.filter nonBlank).isEmpty = false ∧
    s = (let st := applyFallback
            ((file.filter nonBlank).foldl pstep (initState now cwd0))
            (file.filter nonBlank)
         { id := sid, timestamp := st.timestamp, cwd := st.cwd,
           gitBranch := st.gitBranch, status := "completed",
           messageCount := st.messageCount,
           lastMessage := jsSlice st.lastMessage 100,
           summary := st.summary }) := by
  unfold parseSessionFile at h
  cases hE : (file.filter nonBlank).isEmpty with
  | true =>
    simp only [hE, if_true] at h
    exact Option.noConfusion h
  | false =>
    refine ⟨rfl, ?_⟩
    simp only [hE, Bool.false_eq_true, if_false, Option.some.injEq] at h
    exact h.symm

lemma foldl_pstep_garbage (ls : List FileLine)
    (h : ∀ l ∈ ls, l = FileLine.garbage) :
    ∀ st : ParseState, ls.foldl pstep st = st := by
  induction ls with
  | nil => intro st; rfl
  | cons l ls ih =>
    intro st
    have hl := h l (by simp)
    rw [List.foldl_cons, hl]
    exact ih (fun x hx => h x (by simp [hx])) st

lemma foldl_pstep_filter_meta (ls : List FileLine) :
    ∀ st : ParseState,
      (ls.filter (fun l => !isMetaMessageLine l)).foldl pstep st =
        ls.foldl pstep st := by
  induction ls with
  | nil => intro st; rfl
  | cons l ls ih =>
    intro st
    cases hm : isMetaMessageLine l with
    | false => simp [List.filter_cons, hm, ih]
    | true =>
      have : pstep st l = st := by
        cases l with
        | blank => rfl
        | garbage => rfl
        | entry e =>
          simp only [isMetaMessageLine, Bool.and_eq_true] at hm
          exact pstep_metaMessage st hm.1 hm.2
      simp [List.filter_cons, hm, ih, this]

lemma eligText_metaMessage {l : FileLine} (h : isMetaMessageLine l = true) :
    eligText l = none := by
  cases l with
  | blank => rfl
  | garbage => rfl
  | entry e =>
    simp only [isMetaMessageLine, Bool.and_eq_true] at h
    simp [eligText, h.1, normalizeMessageEntry_meta h.1 h.2]

lemma conversational_metaMessage {l : FileLine} (h : isMetaMessageLine l = true) :
    conversational l = false := by
  cases l with
  | blank => rfl
  | garbage => rfl
  | entry e =>
    simp only [isMetaMessageLine, Bool.and_eq_true] at h
    simp [conversational, h.1, normalizeMessageEntry_meta h.1 h.2]

lemma coreProjP_applyFallback (st : ParseState) (lines : List FileLine) :
    coreProjP (applyFallback st lines) = coreFallback (coreProjP st) lines := by
  unfold applyFallback coreFallback
  cases hS : st.sawMetadata with
  | true => simp [coreProjP, hS]
  | false =>
    cases h : lines.head? with
    | none => simp [coreProjP, hS]
    | some l => cases l <;> simp [coreProjP, hS]

lemma exportStep_length (acc : List ExportMsg) (l : FileLine) :
    (exportStep acc l).length =
      if conversational l then acc.length + 1 else acc.length := by
  cases l with
  | blank => simp [exportStep, conversational]
  | garbage => simp [exportStep, conversational]
  | entry e =>
    cases h1 : isMetadataEntry e with
    | true =>
      have h3 := not_msg_of_metadata h1
      simp [exportStep, conversational, h1, h3]
    | false =>
      cases h2 : isSummaryEntry e with
      | true =>
        have h3 := not_msg_of_summary h2
        simp [exportStep, conversational, h1, h2, h3]
      | false =>
        cases h3 : isMessageEntry e with
        | false => simp [exportStep, conversational, h1, h2, h3]
        | true =>
          simp only [exportStep, conversational, h1, h2, h3,
            Bool.false_eq_true, if_false, if_true, Bool.true_and]
          cases hN : normalizeMessageEntry e with
          | error u => simp
          | ok ov =>
            cases ov with
            | none => simp
            | some n =>
              cases hM : n.isMeta with
              | true => simp [hM]
              | false => simp [hM]

lemma foldl_exportStep_length (ls : List FileLine) :
    ∀ acc : List ExportMsg, (ls.foldl exportStep acc).length =
      acc.length + ls.countP conversational := by
  induction ls with
  | nil => intro acc; simp
  | cons l ls ih =>
    intro acc
    rw [List.foldl_cons, ih, List.countP_cons, exportStep_length]
    cases h : conversational l
    · simp [h]
    · simp [h]
      omega

lemma parse_lastMessage {sid now cwd0 : String} {file : List FileLine}
    {s : ClaudeSession} (h : parseSessionFile sid now cwd0 file = some s) :
    s.lastMessage = jsSlice (lastEligibleUserText file) 100 := by
  obtain ⟨hE, hs⟩ := parseSessionFile_some h
  rw [hs]
  simp only [applyFallback_lastMessage, foldl_pstep_lastMessage, initState]
  rfl

lemma parse_messageCount {sid now cwd0 : String} {file : List FileLine}
    {s : ClaudeSession} (h : parseSessionFile sid now cwd0 file = some s) :
    s.messageCount = (file.filter nonBlank).countP conversational := by
  obtain ⟨hE, hs⟩ := parseSessionFile_some h
  rw [hs]
  simp only [applyFallback_messageCount, foldl_pstep_messageCount, initState]
  omega

lemma filterMap_eligText_filter_meta (ls : List FileLine) :
    (ls.filter (fun l => !isMetaMessageLine l)).filterMap eligText =
      ls.filterMap eligText := by
  induction ls with
  | nil => rfl
  | cons l ls ih =>
    cases hml : isMetaMessageLine l with
    | true =>
      simp [List.filter_cons, hml, List.filterMap_cons,
        eligText_metaMessage hml, ih]
    | false => simp [List.filter_cons, hml, List.filterMap_cons, ih]

lemma countP_conversational_filter_meta (ls : List FileLine) :
    (ls.filter (fun l => !isMetaMessageLine l)).countP conversational =
      ls.countP conversational := by
  induction ls with
  | nil => rfl
  | cons l ls ih =>
    cases hml : isMetaMessageLine l with
    | true =>
      simp [List.filter_cons, hml, List.countP_cons,
        conversational_metaMessage hml, ih]
    | false => simp [List.filter_cons, hml, List.countP_cons, ih]

lemma filter_nonBlank_comm_meta (file : List FileLine) :
    (file.filter (fun l => !isMetaMessageLine l)).filter nonBlank =
      (file.filter nonBlank).filter (fun l => !isMetaMessageLine l) := by
  rw [List.filter_filter, List.filter_filter]
  apply List.filter_congr
  intro x _
  rw [Bool.and_comm]

/-- Claim C10: for every message-bearing entry whose isMeta field is
true, normalizeMessageEntry returns the fixed record with role
"system", empty string content and isMeta true, carrying the entry's
timestamp (the original role, even user or assistant, is discarded);
for every entry that is not message-bearing it returns null. -/
theorem C10_normalize_meta (e : SessionFileEntry) :
    (isMessageEntry e = true → e.isMeta = true →
      normalizeMessageEntry e =
        .ok (some { role := some "system", content := .str "",
                    timestamp := e.timestamp, isMeta := true })) ∧
    (isMessageEntry e = false → normalizeMessageEntry e = .ok none) :=
  ⟨fun h1 h2 => normalizeMessageEntry_meta h1 h2,
   fun h => normalizeMessageEntry_nonMsg h⟩

/-- Witness for C10 at a meta user entry and at a summary entry. -/
theorem C10_witness :
    normalizeMessageEntry
        { type := some "user", isMeta := true, timestamp := some "T",
          message := some { content := .str "x" } } =
      .ok (some { role := some "system", content := .str "",
                  timestamp := some "T", isMeta := true }) ∧
    normalizeMessageEntry { type := some "summary", summary := some "s" } =
      .ok none :=
  ⟨(C10_normalize_meta _).1 rfl rfl, (C10_normalize_meta _).2 rfl⟩

/-- Claim C7 counterexample: on a list with a text block "a" followed
by a text block whose text is the empty string, the code returns "a",
while the claim's newline-join of every text block gives "a\n". -/
theorem C7_counterexample :
    extractTextContent (.blocks blocksC7) = "a" ∧
    specAllTextJoin blocksC7 = "a\n" ∧
    extractTextContent (.blocks blocksC7) ≠ specAllTextJoin blocksC7 := by
  refine ⟨by decide, by decide, by decide⟩

/-- Claim C7 (amended): extractTextContent is the identity on every
string input, and on a list of content blocks it returns the
newline-joined text of every block whose type is "text" and whose text
field is a non-empty string, ignoring all other blocks. -/
theorem C7_extractText_amended :
    (∀ s : String, extractTextContent (.str s) = s) ∧
    (∀ bs : List ContentBlock,
      extractTextContent (.blocks bs) =
        String.intercalate "\n" (eligibleBlockTexts bs)) := by
  constructor
  · intro s
    rfl
  · have hl : ∀ bs : List ContentBlock,
        (bs.filter (fun b => b.btype == some "text" && textTruthy b.text)).map
            (fun b => b.text.getD "") = eligibleBlockTexts bs := by
      intro bs
      induction bs with
      | nil => rfl
      | cons b bs ih =>
        cases h : (b.btype == some "text" && textTruthy b.text) with
        | true => simp [List.filter_cons, h, eligibleBlockTexts, ih]
        | false => simp [List.filter_cons, h, eligibleBlockTexts, ih]
    intro bs
    simp only [extractTextContent]
    rw [hl bs]

/-- Claim C6 counterexample: a file consisting of one blank line has
zero parseable lines, yet parseSessionFile returns null rather than a
session summary with zeroed fields. -/
theorem C6_counterexample :
    parseSessionFile "s" "T" "/c" [FileLine.blank] = none := by
  decide

/-- Claim C6 (amended): on a file with zero JSON-parseable lines,
parseSessionFile returns the summary with `messageCount = 0`,
`lastMessage = ""` and `summary = ""` (and ambient timestamp and cwd)
provided at least one line is non-blank; when every line is blank it
returns null instead. -/
theorem C6_unparseable_amended (sid now cwd0 : String) (file : List FileLine)
    (h : ∀ l ∈ file, l = FileLine.blank ∨ l = FileLine.garbage) :
    parseSessionFile sid now cwd0 file =
      if (file.filter nonBlank).isEmpty then none
      else some { id := sid, timestamp := now, cwd := cwd0, gitBranch := none,
                  status := "completed", messageCount := 0, lastMessage := "",
                  summary := some "" } := by
  have hg : ∀ l ∈ file.filter nonBlank, l = FileLine.garbage := by
    intro l hl
    rw [List.mem_filter] at hl
    rcases h l hl.1 with h' | h'
    · rw [h'] at hl
      simp [nonBlank] at hl
    · exact h'
  unfold parseSessionFile
  cases hE : (file.filter nonBlank).isEmpty with
  | true => simp [hE]
  | false =>
    simp only [hE, Bool.false_eq_true, if_false]
    rw [foldl_pstep_garbage _ hg]
    cases hL : file.filter nonBlank with
    | nil =>
      rw [hL] at hE
      simp at hE
    | cons l ls =>
      have hlg : l = FileLine.garbage := hg l (by rw [hL]; simp)
      unfold applyFallback
      simp [initState, hlg, jsSlice]

/-- Witness for C6 at a file holding one unparseable non-blank line. -/
theorem C6_witness :
    parseSessionFile "s" "T" "/c" [FileLine.garbage] =
      some { id := "s", timestamp := "T", cwd := "/c", gitBranch := none,
             status := "completed", messageCount := 0, lastMessage := "",
             summary := some "" } := by
  rw [C6_unparseable_amended "s" "T" "/c" [FileLine.garbage]
    (by intro l hl; rw [List.mem_singleton] at hl; subst hl; exact Or.inr rfl)]
  decide

/-- Claim C5: inserting a non-JSON garbage line between two valid
lines leaves the session summary unchanged — the line produces no
record and does not abort processing. -/
theorem C5_garbage_line_skipped (sid now cwd0 : String)
    (xs ys : List FileLine) (a b : SessionFileEntry) :
    parseSessionFile sid now cwd0
        (xs ++ FileLine.entry a :: FileLine.garbage :: FileLine.entry b :: ys) =
      parseSessionFile sid now cwd0
        (xs ++ FileLine.entry a :: FileLine.entry b :: ys) := by
  unfold parseSessionFile
  have hf1 : (xs ++ FileLine.entry a :: FileLine.garbage ::
        FileLine.entry b :: ys).filter nonBlank =
      xs.filter nonBlank ++ FileLine.entry a :: FileLine.garbage ::
        FileLine.entry b :: ys.filter nonBlank := by
    simp [List.filter_append, List.filter_cons, nonBlank]
  have hf2 : (xs ++ FileLine.entry a :: FileLine.entry b :: ys).filter nonBlank =
      xs.filter nonBlank ++ FileLine.entry a ::
        FileLine.entry b :: ys.filter nonBlank := by
    simp [List.filter_append, List.filter_cons, nonBlank]
  rw [hf1, hf2]
  have hE1 : (xs.filter nonBlank ++ FileLine.entry a :: FileLine.garbage ::
      FileLine.entry b :: ys.filter nonBlank).isEmpty = false := by
    cases hx : xs.filter nonBlank <;> simp
  have hE2 : (xs.filter nonBlank ++ FileLine.entry a ::
      FileLine.entry b :: ys.filter nonBlank).isEmpty = false := by
    cases hx : xs.filter nonBlank <;> simp
  simp only [hE1, hE2, Bool.false_eq_true, if_false]
  have hfold : (xs.filter nonBlank ++ FileLine.entry a :: FileLine.garbage ::
        FileLine.entry b :: ys.filter nonBlank).foldl pstep (initState now cwd0) =
      (xs.filter nonBlank ++ FileLine.entry a ::
        FileLine.entry b :: ys.filter nonBlank).foldl pstep (initState now cwd0) := by
    rw [List.foldl_append, List.foldl_append]
    rfl
  have hhd : (xs.filter nonBlank ++ FileLine.entry a :: FileLine.garbage ::
        FileLine.entry b :: ys.filter nonBlank).head? =
      (xs.filter nonBlank ++ FileLine.entry a ::
        FileLine.entry b :: ys.filter nonBlank).head? := by
    cases hx : xs.filter nonBlank <;> simp
  rw [hfold, applyFallback_congr _ _ _ hhd]

/-- Claim C3 counterexample: on a transcript supplying neither
timestamp nor cwd, two invocations whose ambient clock or working
directory differ return different session summaries, so the summary is
not a pure function of the file contents. -/
theorem C3_counterexample :
    parseSessionFile "s" "T1" "/d1" fileC3 ≠
      parseSessionFile "s" "T2" "/d2" fileC3 := by
  decide

/-- Claim C3 (amended): for a fixed file content the summary is
invocation-independent in every field except `timestamp` and `cwd`,
which fall back to the ambient clock and working directory when the
transcript does not supply them. -/
theorem C3_purity_amended (sid now1 cwd1 now2 cwd2 : String)
    (file : List FileLine) :
    (parseSessionFile sid now1 cwd1 file).map sessionCore =
      (parseSessionFile sid now2 cwd2 file).map sessionCore := by
  unfold parseSessionFile
  cases hE : (file.filter nonBlank).isEmpty with
  | true => simp [hE]
  | false =>
    simp only [hE, Bool.false_eq_true, if_false, Option.map_some']
    have hcore : coreProjP (applyFallback
          ((file.filter nonBlank).foldl pstep (initState now1 cwd1))
          (file.filter nonBlank)) =
        coreProjP (applyFallback
          ((file.filter nonBlank).foldl pstep (initState now2 cwd2))
          (file.filter nonBlank)) := by
      rw [coreProjP_applyFallback, coreProjP_applyFallback,
        foldl_coreProjP, foldl_coreProjP]
      rfl
    have h1 := congrArg CoreFields.messageCount hcore
    have h2 := congrArg CoreFields.lastMessage hcore
    have h3 := congrArg CoreFields.summary hcore
    have h4 := congrArg CoreFields.gitBranch hcore
    simp only [coreProjP] at h1 h2 h3 h4
    simp [sessionCore, h1, h2, h3, h4]

/-- Claim C1 counterexample: in `fileC1` the last-in-file user message
has extracted text "" (its list content holds no text block), which
contains no command marker, so by the claim `lastMessage` should be
that empty text; the code instead keeps the earlier message "hi". -/
theorem C1_counterexample :
    specLastUserText fileC1 = some "" ∧
    (parseSessionFile "s" "T" "/c" fileC1).map (fun s => s.lastMessage) =
      some "hi" ∧
    (parseSessionFile "s" "T" "/c" fileC1).map (fun s => s.lastMessage) ≠
      specLastUserText fileC1 := by
  refine ⟨by decide, by decide, by decide⟩

/-- Claim C1 (amended): `lastMessage` equals the first 100 characters
of the flattened text of the last-in-file non-meta user message whose
extracted text is non-empty and contains neither command-marker
substring; it is empty when no such message exists, so a
marker-containing (or empty-text) user message never overwrites an
earlier eligible one. -/
theorem C1_lastMessage_amended (sid now cwd0 : String) (file : List FileLine)
    (s : ClaudeSession) (h : parseSessionFile sid now cwd0 file = some s) :
    s.lastMessage = jsSlice (lastEligibleUserText file) 100 :=
  parse_lastMessage h

/-- Witness for C1 at a transcript with an eligible user message
followed by a marker-carrying user message and a meta user message. -/
theorem C1_witness :
    parseSessionFile "s" "T" "/c" fileW =
      some { id := "s", timestamp := "2024-01-01T00:00:00Z",
             cwd := "/tmp/proj", gitBranch := some "main",
             status := "completed", messageCount := 2,
             lastMessage := "fix bug", summary := some "Bug fix session" } ∧
    ("fix bug" : String) = jsSlice (lastEligibleUserText fileW) 100 :=
  have hp : parseSessionFile "s" "T" "/c" fileW =
      some { id := "s", timestamp := "2024-01-01T00:00:00Z",
             cwd := "/tmp/proj", gitBranch := some "main",
             status := "completed", messageCount := 2,
             lastMessage := "fix bug", summary := some "Bug fix session" } := by
    decide
  ⟨hp, C1_lastMessage_amended "s" "T" "/c" fileW _ hp⟩

/-- Claim C8: when the selected last user message text is longer than
100 characters, `lastMessage` is exactly its first 100 characters
(length exactly 100, never more); for a text of at most 100 characters
it is the text unchanged. -/
theorem C8_truncation (sid now cwd0 : String) (file : List FileLine)
    (s : ClaudeSession) (h : parseSessionFile sid now cwd0 file = some s) :
    (100 < (lastEligibleUserText file).length →
      s.lastMessage = jsSlice (lastEligibleUserText file) 100 ∧
      s.lastMessage.length = 100) ∧
    ((lastEligibleUserText file).length ≤ 100 →
      s.lastMessage = lastEligibleUserText file) := by
  have hl := parse_lastMessage h
  constructor
  · intro hlen
    refine ⟨hl, ?_⟩
    rw [hl]
    show ((lastEligibleUserText file).data.take 100).length = 100
    rw [List.length_take]
    have : (lastEligibleUserText file).length = (lastEligibleUserText file).data.length := rfl
    omega
  · intro hlen
    rw [hl]
    unfold jsSlice
    have hlen' : (lastEligibleUserText file).data.length ≤ 100 := hlen
    rw [List.take_of_length_le hlen']

set_option maxRecDepth 40000 in
/-- Witness for C8 at a 150-character user message. -/
theorem C8_witness :
    parseSessionFile "s" "T" "/c" fileC8 =
      some { id := "s", timestamp := "T", cwd := "/c", gitBranch := none,
             status := "completed", messageCount := 1,
             lastMessage := long100, summary := some "" } ∧
    100 < (lastEligibleUserText fileC8).length ∧
    long100 = jsSlice (lastEligibleUserText fileC8) 100 ∧
    long100.length = 100 :=
  have hp : parseSessionFile "s" "T" "/c" fileC8 =
      some { id := "s", timestamp := "T", cwd := "/c", gitBranch := none,
             status := "completed", messageCount := 1,
             lastMessage := long100, summary := some "" } := by
    decide
  ⟨hp, by decide,
   ((C8_truncation "s" "T" "/c" fileC8 _ hp).1 (by decide)).1,
   ((C8_truncation "s" "T" "/c" fileC8 _ hp).1 (by decide)).2⟩

/-- Claim C9: `messageCount` from parseSessionFile equals the number
of conversation messages collected by exportSession's markdown path,
and both count exactly the parseable message-type lines whose
normalization succeeds with `isMeta` unset. -/
theorem C9_count_agreement (sid now cwd0 : String) (file : List FileLine)
    (s : ClaudeSession) (h : parseSessionFile sid now cwd0 file = some s) :
    s.messageCount = (exportMessages file).length ∧
    (exportMessages file).length =
      (file.filter nonBlank).countP conversational := by
  have h1 := parse_messageCount h
  have h2 : (exportMessages file).length =
      (file.filter nonBlank).countP conversational := by
    unfold exportMessages
    rw [foldl_exportStep_length]
    simp
  exact ⟨by rw [h1, h2], h2⟩

/-- Witness for C9 at `fileW` (two conversation messages; the meta
user message and the garbage line are not counted). -/
theorem C9_witness :
    parseSessionFile "s" "T" "/c" fileW =
      some { id := "s", timestamp := "2024-01-01T00:00:00Z",
             cwd := "/tmp/proj", gitBranch := some "main",
             status := "completed", messageCount := 2,
             lastMessage := "fix bug", summary := some "Bug fix session" } ∧
    (2 : Nat) = (exportMessages fileW).length ∧
    (exportMessages fileW).length = (fileW.filter nonBlank).countP conversational :=
  have hp : parseSessionFile "s" "T" "/c" fileW =
      some { id := "s", timestamp := "2024-01-01T00:00:00Z",
             cwd := "/tmp/proj", gitBranch := some "main",
             status := "completed", messageCount := 2,
             lastMessage := "fix bug", summary := some "Bug fix session" } := by
    decide
  ⟨hp, (C9_count_agreement "s" "T" "/c" fileW _ hp).1,
   (C9_count_agreement "s" "T" "/c" fileW _ hp).2⟩

/-- Claim C4: a message-bearing record with `isMeta` set leaves the
fold state untouched (so it neither increments `messageCount` nor
changes `lastMessage`), and the summary of any file agrees on
`messageCount` and `lastMessage` with the summary of the same file
with every meta message line removed. -/
theorem C4_isMeta_excluded :
    (∀ (st : ParseState) (e : SessionFileEntry),
      isMessageEntry e = true → e.isMeta = true →
        pstep st (.entry e) = st) ∧
    (∀ (sid now cwd0 : String) (file : List FileLine) (s s' : ClaudeSession),
      parseSessionFile sid now cwd0 file = some s →
      parseSessionFile sid now cwd0
          (file.filter (fun l => !isMetaMessageLine l)) = some s' →
      s.messageCount = s'.messageCount ∧ s.lastMessage = s'.lastMessage) := by
  constructor
  · intro st e h1 h2
    exact pstep_metaMessage st h1 h2
  · intro sid now cwd0 file s s' h h'
    have hc := parse_messageCount h
    have hc' := parse_messageCount h'
    have hm := parse_lastMessage h
    have hm' := parse_lastMessage h'
    constructor
    · rw [hc, hc', filter_nonBlank_comm_meta,
        countP_conversational_filter_meta]
    · rw [hm, hm']
      unfold lastEligibleUserText
      rw [filter_nonBlank_comm_meta, filterMap_eligText_filter_meta]

/-- Witness for C4: a concrete meta user entry leaves the state
unchanged, and the summaries of `fileW` and of `fileW` without its
meta message line agree on count and last message. -/
theorem C4_witness :
    pstep (initState "T" "/c")
        (.entry { type := some "user", isMeta := true,
                  message := some { content := .str "internal" } }) =
      initState "T" "/c" ∧
    ((2 : Nat) = 2 ∧ ("fix bug" : String) = "fix bug") :=
  have hp : parseSessionFile "s" "T" "/c" fileW =
      some { id := "s", timestamp := "2024-01-01T00:00:00Z",
             cwd := "/tmp/proj", gitBranch := some "main",
             status := "completed", messageCount := 2,
             lastMessage := "fix bug", summary := some "Bug fix session" } := by
    decide
  have hp' : parseSessionFile "s" "T" "/c"
      (fileW.filter (fun l => !isMetaMessageLine l)) =
      some { id := "s", timestamp := "2024-01-01T00:00:00Z",
             cwd := "/tmp/proj", gitBranch := some "main",
             status := "completed", messageCount := 2,
             lastMessage := "fix bug", summary := some "Bug fix session" } := by
    decide
  ⟨C4_isMeta_excluded.1 (initState "T" "/c") _ rfl rfl,
   C4_isMeta_excluded.2 "s" "T" "/c" fileW _ _ hp hp'⟩

/-- Claim C2 counterexample: with two metadata records carrying cwd
"/a" then "/b", the summary's cwd is "/b" (the later record
overwrites), not the first metadata record's "/a" as the claim
states. -/
theorem C2_counterexample :
    (parseSessionFile "s" "T" "/c" fileC2).map (fun s => s.cwd) = some "/b" ∧
    (firstMetadataEntry fileC2).map (fun e => e.cwd) = some (some "/a") ∧
    (parseSessionFile "s" "T" "/c" fileC2).map (fun s => s.cwd) ≠ some "/a" := by
  refine ⟨by decide, by decide, by decide⟩

/-- Claim C2 (amended): the summary's timestamp, cwd and gitBranch are
the result of folding all metadata records in file order — non-empty
timestamp/cwd values overwrite, gitBranch is overwritten
unconditionally, so the last metadata record wins — with the legacy
fallback to the first non-blank line's parsed fields when no metadata
record exists, and ambient defaults otherwise. -/
theorem C2_metadata_amended (sid now cwd0 : String) (file : List FileLine)
    (s : ClaudeSession) (h : parseSessionFile sid now cwd0 file = some s) :
    s.timestamp = (sessionMetaFields now cwd0 file).timestamp ∧
    s.cwd = (sessionMetaFields now cwd0 file).cwd ∧
    s.gitBranch = (sessionMetaFields now cwd0 file).gitBranch := by
  obtain ⟨hE, hs⟩ := parseSessionFile_some h
  have hm : metaProjP ((file.filter nonBlank).foldl pstep (initState now cwd0)) =
      ((file.filter nonBlank).filter isMetadataLine).foldl metaStep
        { sawMeta := false, timestamp := now, cwd := cwd0, gitBranch := none } := by
    rw [foldl_metaProjP, foldl_metaStep_filter]
    rfl
  have hA := congrArg MetaFields.sawMeta hm
  have hB := congrArg MetaFields.timestamp hm
  have hC := congrArg MetaFields.cwd hm
  have hD := congrArg MetaFields.gitBranch hm
  simp only [metaProjP] at hA hB hC hD
  rw [hs]
  dsimp only
  unfold applyFallback sessionMetaFields
  dsimp only
  cases hS : ((file.filter nonBlank).foldl pstep (initState now cwd0)).sawMetadata with
  | true =>
    have hA' : (((file.filter nonBlank).filter isMetadataLine).foldl metaStep
        { sawMeta := false, timestamp := now, cwd := cwd0,
          gitBranch := none }).sawMeta = true := by
      rw [← hA, hS]
    rw [if_pos rfl, if_pos hA']
    exact ⟨hB, hC, hD⟩
  | false =>
    have hA' : (((file.filter nonBlank).filter isMetadataLine).foldl metaStep
        { sawMeta := false, timestamp := now, cwd := cwd0,
          gitBranch := none }).sawMeta = false := by
      rw [← hA, hS]
    rw [if_neg Bool.false_ne_true,
      if_neg (by rw [hA']; exact Bool.false_ne_true)]
    cases hhd : (file.filter nonBlank).head? with
    | none => exact ⟨hB, hC, hD⟩
    | some l =>
      cases l with
      | blank => exact ⟨hB, hC, hD⟩
      | garbage => exact ⟨hB, hC, hD⟩
      | entry e2 => exact ⟨by rw [hB], by rw [hC], rfl⟩

/-- Witness for C2 at `fileW`, whose metadata record carries all three
fields. -/
theorem C2_witness :
    parseSessionFile "s" "T" "/c" fileW =
      some { id := "s", timestamp := "2024-01-01T00:00:00Z",
             cwd := "/tmp/proj", gitBranch := some "main",
             status := "completed", messageCount := 2,
             lastMessage := "fix bug", summary := some "Bug fix session" } ∧
    ("2024-01-01T00:00:00Z" : String) =
      (sessionMetaFields "T" "/c" fileW).timestamp ∧
    ("/tmp/proj" : String) = (sessionMetaFields "T" "/c" fileW).cwd ∧
    (some "main" : Option String) = (sessionMetaFields "T" "/c" fileW).gitBranch :=
  have hp : parseSessionFile "s" "T" "/c" fileW =
      some { id := "s", timestamp := "2024-01-01T00:00:00Z",
             cwd := "/tmp/proj", gitBranch := some "main",
             status := "completed", messageCount := 2,
             lastMessage := "fix bug", summary := some "Bug fix session" } := by
    decide
  ⟨hp, (C2_metadata_amended "s" "T" "/c" fileW _ hp).1,
   (C2_metadata_amended "s" "T" "/c" fileW _ hp).2.1,
   (C2_metadata_amended "s" "T" "/c" fileW _ hp).2.2⟩
